import Mathlib

/-!
Verification of the StudyPath content-processing and knowledge-tree pipeline.

The frontend TypeScript (quiz flow in `app/page.tsx`, the knowledge-tree
service, the WebSocket service, and the quiz-results modal) is embedded
directly from the source.  The backend Tree Synthesizer and Pipeline
Orchestrator are not part of the available sources; the definitions for them
below are modelled from the specification and are marked as such in their
doc comments.
-/

/-! ## Spec-modelled Tree Synthesizer data model -/

/-- Modelled from the spec: a Question has prompt text, four option labels
(A-D) with text, a designated correct option, and an explanation. -/
structure SpecQuestion where
  prompt : String
  optionA : String
  optionB : String
  optionC : String
  optionD : String
  correct : String
  explanation : String
deriving DecidableEq, Repr

/-- Modelled from the spec: the candidate concept forest returned by the
structure-synthesis capability, as the strict tagged variant
`RawNode(concept, level, children)` (plus the per-node question returned by
the question-generation call, `none` when that call failed). -/
inductive RawNode where
  | mk (concept : String) (level : Nat) (question : Option SpecQuestion) (children : List RawNode)

def RawNode.concept : RawNode → String
  | .mk c _ _ _ => c

def RawNode.level : RawNode → Nat
  | .mk _ l _ _ => l

def RawNode.question : RawNode → Option SpecQuestion
  | .mk _ _ q _ => q

def RawNode.children : RawNode → List RawNode
  | .mk _ _ _ ch => ch

/-- Split a character list at whitespace (helper for prompt normalization). -/
def splitWS : List Char → List (List Char)
  | [] => [[]]
  | c :: cs =>
    if c.isWhitespace then [] :: splitWS cs
    else
      match splitWS cs with
      | [] => [[c]]
      | w :: ws => (c :: w) :: ws

/-- Modelled from the spec: prompt normalization is a case-insensitive,
whitespace-collapsed comparison, so a prompt is normalized by lowercasing it
and collapsing every whitespace run. -/
def normalizePrompt (s : String) : String :=
  String.mk (List.intercalate [' '] ((splitWS (s.data.map Char.toLower)).filter (fun w => w ≠ [])))

/-- Modelled from the spec: rewrite a whole subtree to strict sequential
level numbering starting at `lvl`, preserving relative order and
parent/child relationships. -/
def renumberForest (lvl : Nat) : List RawNode → List RawNode
  | [] => []
  | .mk c _ q ch :: rest => .mk c lvl q (renumberForest (lvl + 1) ch) :: renumberForest lvl rest

/-- Modelled from the spec, level repair: walk each proposed tree top-down;
if a child's level is not exactly the parent's level + 1, rewrite the
child's (and its subtree's) levels to restore strict sequential numbering;
otherwise keep the child's level and continue below it. -/
def repairChildren (parentLevel : Nat) : List RawNode → List RawNode
  | [] => []
  | .mk c l q ch :: rest =>
    if l = parentLevel + 1 then
      .mk c l q (repairChildren l ch) :: repairChildren parentLevel rest
    else
      .mk c (parentLevel + 1) q (renumberForest (parentLevel + 2) ch) :: repairChildren parentLevel rest

/-- Modelled from the spec: level repair of one proposed tree; the root
concept node of a KnowledgeTree is at level 1 and its children are repaired
against it. -/
def levelRepair : RawNode → RawNode
  | .mk c _ q ch => .mk c 1 q (repairChildren 1 ch)

/-- Modelled from the spec, depth clamp: any branch exceeding the configured
maximum depth is truncated at that depth; truncated nodes are dropped along
with their subtrees.  `remaining` is the number of levels still allowed
below the current parent. -/
def clampChildren : Nat → List RawNode → List RawNode
  | _, [] => []
  | 0, _ :: _ => []
  | remaining + 1, .mk c l q ch :: rest =>
    .mk c l q (clampChildren remaining ch) :: clampChildren (remaining + 1) rest

/-- Modelled from the spec: depth clamp of one tree whose root occupies
depth 1 of the `maxDepth` (default 5) allowed levels. -/
def clampTree (maxDepth : Nat) : RawNode → RawNode
  | .mk c l q ch => .mk c l q (clampChildren (maxDepth - 1) ch)

/-- Modelled from the spec, global uniqueness enforcement: maintain a set of
normalized prompt texts seeded with `existingQuestionPrompts`; walking the
forest top-down, a newly generated Question whose normalized prompt is
already in the set is discarded (the node reverts to no question), otherwise
it is kept and its normalized prompt added to the set. -/
def enforceForest : List String → List RawNode → List RawNode × List String
  | seen, [] => ([], seen)
  | seen, .mk c l none ch :: rest =>
    let p1 := enforceForest seen ch
    let p2 := enforceForest p1.2 rest
    (.mk c l none p1.1 :: p2.1, p2.2)
  | seen, .mk c l (some gq) ch :: rest =>
    if normalizePrompt gq.prompt ∈ seen then
      let p1 := enforceForest seen ch
      let p2 := enforceForest p1.2 rest
      (.mk c l none p1.1 :: p2.1, p2.2)
    else
      let p1 := enforceForest (normalizePrompt gq.prompt :: seen) ch
      let p2 := enforceForest p1.2 rest
      (.mk c l (some gq) p1.1 :: p2.1, p2.2)

/-- Modelled from the spec: the Tree Synthesizer stages that follow the
capability call, in order: level repair, depth clamp, then global question
uniqueness enforcement over the seeded normalized-prompt set.  Returns the
finished forest together with the final prompt set. -/
def synthesize (maxDepth : Nat) (seed : List String) (forest : List RawNode) :
    List RawNode × List String :=
  enforceForest seed ((forest.map levelRepair).map (clampTree maxDepth))

/-- Modelled from the spec: repeated synthesis runs for one user, each run
seeded with the prompt set left by the previous runs (the persisted
`existingQuestionPrompts`). -/
def runAll (maxDepth : Nat) (seed : List String) : List (List RawNode) → List (List RawNode) × List String
  | [] => ([], seed)
  | f :: fs =>
    let p1 := synthesize maxDepth seed f
    let p2 := runAll maxDepth p1.2 fs
    (p1.1 :: p2.1, p2.2)

/-- Level invariant check relative to a parent level: every node in the
forest sits exactly one level below its parent, recursively. -/
def relInv : Nat → List RawNode → Bool
  | _, [] => true
  | pl, .mk _ l _ ch :: rest => (l == pl + 1) && relInv l ch && relInv pl rest

/-- Level invariant of a whole tree: every non-root node's level equals its
parent's level plus 1. -/
def treeRelInv : RawNode → Bool
  | .mk _ l _ ch => relInv l ch

/-- All prompt texts of questions attached in a forest, in traversal order. -/
def collectPrompts : List RawNode → List String
  | [] => []
  | .mk _ _ none ch :: rest => collectPrompts ch ++ collectPrompts rest
  | .mk _ _ (some gq) ch :: rest => gq.prompt :: (collectPrompts ch ++ collectPrompts rest)

/-- All prompt texts across the forests of several runs. -/
def collectPromptsAll (runs : List (List RawNode)) : List String :=
  (runs.map collectPrompts).flatten

/-! ## Frontend knowledge-tree service (`knowledge-tree-service.ts`) -/

/-- The `options` object of a question as received from the API; each label
may be missing (`undefined`) on malformed data. -/
structure JSOptions where
  A : Option String
  B : Option String
  C : Option String
  D : Option String
deriving DecidableEq, Repr

/-- A question object as received from the API: each attribute of the
declared `Question` interface may be absent or empty on malformed data.
The prompt text is stored in the field named `question` in the source. -/
structure JSQuestion where
  question : Option String
  options : Option JSOptions
  correct_answer : Option String
  explanation : Option String
deriving DecidableEq, Repr

/-- JavaScript truthiness of an optional string: `undefined` and the empty
string are falsy. -/
def strTruthy : Option String → Bool
  | none => false
  | some s => s ≠ ""

/-- JavaScript `a || b` on a string with a default: the empty string falls
through to the default. -/
def jsOr (s d : String) : String :=
  if s = "" then d else s

/-- A `KnowledgeTreeNode` of the declared interface: concept, level,
optional question, ordered children. -/
inductive KTNode where
  | mk (concept : String) (level : Int) (question : Option JSQuestion) (children : List KTNode)

def KTNode.concept : KTNode → String
  | .mk c _ _ _ => c

def KTNode.level : KTNode → Int
  | .mk _ l _ _ => l

def KTNode.question : KTNode → Option JSQuestion
  | .mk _ _ q _ => q

def KTNode.children : KTNode → List KTNode
  | .mk _ _ _ ch => ch

/-- A `KnowledgeTree` of the declared interface. -/
structure KnowledgeTree where
  root_concept : String
  tree : KTNode

/-- Node information attached to each flattened question. -/
structure NodeInfo where
  rootConcept : String
  concept : String
  level : Int
deriving DecidableEq, Repr

/-- One entry of the flattened question list. -/
structure FlatEntry where
  question : JSQuestion
  nodeInfo : NodeInfo
deriving DecidableEq, Repr

/-- The admission check of `flattenQuestions`: the node's question object
must be present and its `question`, `options` and `correct_answer` fields
truthy (source: `if (nodeQuestion.question && nodeQuestion.options &&
nodeQuestion.correct_answer)`). -/
def admitsQuestion (q : JSQuestion) : Bool :=
  strTruthy q.question && q.options.isSome && strTruthy q.correct_answer

/-- The inner `traverse` of `flattenQuestions`, processing a node (push its
question when admissible, with the `concept || 'Unknown'` fallback and the
node's level) and then its children in order. -/
def traverseForest (rootConcept : String) : List KTNode → List FlatEntry
  | [] => []
  | .mk concept level q ch :: rest =>
    (match q with
     | some jq =>
       if admitsQuestion jq then
         [⟨jq, ⟨rootConcept, jsOr concept "Unknown", level⟩⟩]
       else []
     | none => []) ++ (traverseForest rootConcept ch ++ traverseForest rootConcept rest)

/-- `KnowledgeTreeService.flattenQuestions`: flatten all questions from the
knowledge trees with their node information, using the
`root_concept || 'Unknown'` fallback per tree. -/
def flattenQuestions (trees : List KnowledgeTree) : List FlatEntry :=
  trees.flatMap fun t => traverseForest (jsOr t.root_concept "Unknown") [t.tree]

/-- Depth-first pre-order listing of the nodes of a forest (a node before
its children, children before later siblings). -/
def preorderForest : List KTNode → List KTNode
  | [] => []
  | .mk c l q ch :: rest =>
    .mk c l q ch :: (preorderForest ch ++ preorderForest rest)

/-- The entry `flattenQuestions` would produce for a single node, when its
question is admitted. -/
def flatEntryOf (rootConcept : String) (n : KTNode) : Option FlatEntry :=
  match n.question with
  | some jq =>
    if admitsQuestion jq then
      some ⟨jq, ⟨rootConcept, jsOr n.concept "Unknown", n.level⟩⟩
    else none
  | none => none

/-! ## Quiz-results modal (`quiz-results-modal.tsx`) -/

/-- An entry of the recommended-study list built by
`getIncorrectNodesInOrder`. -/
structure StudyRec where
  concept : String
  level : Int
  rootConcept : String
  description : String

/-- `getNodeResult`: look up a node's quiz result in the result map under
the key `rootConcept:concept:level`. -/
def getNodeResult (node : KTNode) (rootConcept : String) (resultMap : String → Option Bool) :
    Option Bool :=
  resultMap (rootConcept ++ ":" ++ node.concept ++ ":" ++ toString node.level)

/-- The study description computed for an incorrect node: the first sentence
of the question's explanation when present and reasonably sized, a truncated
form of the explanation otherwise, and a generic text as fallback. -/
def descriptionOf (node : KTNode) : String :=
  let dflt := "Study the fundamentals and key concepts of " ++ node.concept ++ "."
  match node.question with
  | some jq =>
    match jq.explanation with
    | some ex =>
      if ex = "" then dflt
      else
        let firstSentence := ((ex.splitOn ".").headD "").trim
        if firstSentence ≠ "" ∧ 10 < firstSentence.length ∧ firstSentence.length < 200 then
          if firstSentence.endsWith "." then firstSentence else firstSentence ++ "."
        else if 10 < ex.length ∧ ex.length < 200 then
          if 150 < ex.length then ex.take 150 ++ "..." else ex
        else dflt
    | none => dflt
  | none => dflt

/-- The recommended-study entry built for one incorrect node. -/
def studyRecOf (rootConcept : String) (n : KTNode) : StudyRec :=
  ⟨n.concept, n.level, rootConcept, descriptionOf n⟩

/-- The inner `traverse` of `getIncorrectNodesInOrder`: push the node when
its recorded result is `false`, then recurse into the children in order. -/
def traverseIncorrect (resultMap : String → Option Bool) (rootConcept : String) :
    List KTNode → List StudyRec
  | [] => []
  | .mk c l q ch :: rest =>
    (if getNodeResult (.mk c l q ch) rootConcept resultMap = some false then
      [studyRecOf rootConcept (.mk c l q ch)]
     else []) ++
    (traverseIncorrect resultMap rootConcept ch ++ traverseIncorrect resultMap rootConcept rest)

/-- `getIncorrectNodesInOrder`: collect the incorrectly answered nodes of
all trees in top-down pre-order, then reverse the list. -/
def getIncorrectNodesInOrder (trees : List KnowledgeTree) (resultMap : String → Option Bool) :
    List StudyRec :=
  (trees.flatMap fun t => traverseIncorrect resultMap t.root_concept [t.tree]).reverse

/-- The recommended-study entry `getIncorrectNodesInOrder` would produce for
a single node: present exactly when the node's recorded result is an
incorrect answer. -/
def incorrectEntryOf (resultMap : String → Option Bool) (rootConcept : String) (n : KTNode) :
    Option StudyRec :=
  if getNodeResult n rootConcept resultMap = some false then some (studyRecOf rootConcept n)
  else none

/-! ## Quiz flow (`app/page.tsx`) -/

/-- The typed `Question` interface used by the quiz-taking flow. -/
structure Question where
  question : String
  options : JSOptions
  correct_answer : String
  explanation : String
deriving DecidableEq, Repr

/-- One element of the `quizQuestions` state: a question plus its node
information, as produced by `flattenQuestions`. -/
structure QuizQuestion where
  question : Question
  nodeInfo : NodeInfo
deriving DecidableEq, Repr

/-- One element of the `quizResults` state. -/
structure QuizResultEntry where
  nodeInfo : NodeInfo
  correct : Bool
  userAnswer : String
  correctAnswer : String
deriving DecidableEq, Repr

/-- A chat message (timestamps are wall-clock values and are omitted). -/
structure ChatMessage where
  role : String
  content : String
deriving DecidableEq, Repr

/-- The part of the `Home` component state that the quiz flow reads and
writes.  `storedAttempt` models the attempt persisted through
`knowledgeTreeService.storeQuizResults` and retained as the user's last
attempt. -/
structure QuizState where
  messages : List ChatMessage
  isQuizActive : Bool
  quizQuestions : List QuizQuestion
  currentQuestionIndex : Nat
  quizResults : List QuizResultEntry
  answeredQuestionIndex : Option Nat
  showQuizReadyModal : Bool
  showQuizResultsModal : Bool
  storedAttempt : Option (List QuizResultEntry)
  hasLastQuizResults : Bool
deriving DecidableEq, Repr

/-- The initial `Home` state relevant to the quiz flow. -/
def initHomeState : QuizState :=
  { messages := []
    isQuizActive := false
    quizQuestions := []
    currentQuestionIndex := 0
    quizResults := []
    answeredQuestionIndex := none
    showQuizReadyModal := false
    showQuizResultsModal := false
    storedAttempt := none
    hasLastQuizResults := false }

/-- The `options[answer]` lookup: answers other than the four labels read an
absent property. -/
def lookupOption (o : JSOptions) (answer : String) : Option String :=
  if answer = "A" then o.A
  else if answer = "B" then o.B
  else if answer = "C" then o.C
  else if answer = "D" then o.D
  else none

/-- `handleStartQuiz`: close the ready modal, activate the quiz, reset the
index, results and answered flag, and show the first question. -/
def handleStartQuiz (s : QuizState) : QuizState :=
  let s1 := { s with
              showQuizReadyModal := false
              isQuizActive := true
              currentQuestionIndex := 0
              quizResults := []
              answeredQuestionIndex := none }
  match s.quizQuestions with
  | firstQuestion :: _ =>
    { s1 with messages := [⟨"assistant", firstQuestion.question.question⟩] }
  | [] => s1

/-- `handleAnswerClick`: guard against an inactive quiz, an exhausted index
and a double answer; then record the answer in the chat, extend the result
list, and either advance to the next question or, on the last question,
finish the quiz and persist the attempt (the two-second timeouts are
collapsed into the same transition). -/
def handleAnswerClick (s : QuizState) (answer : String) : QuizState :=
  if ¬s.isQuizActive ∨ s.quizQuestions.length ≤ s.currentQuestionIndex then s
  else if s.answeredQuestionIndex = some s.currentQuestionIndex then s
  else
    match s.quizQuestions[s.currentQuestionIndex]? with
    | none => s
    | some currentQ =>
      let isCorrect := answer == currentQ.question.correct_answer
      let optionText := lookupOption currentQ.question.options answer
      let resultText :=
        if isCorrect then "✅ Correct!"
        else "❌ Incorrect. The correct answer is " ++ currentQ.question.correct_answer ++ "."
      let messages1 := s.messages ++
        [⟨"user", answer ++ ". " ++ optionText.getD "undefined"⟩,
         ⟨"assistant", resultText ++ "\n\n" ++ currentQ.question.explanation⟩]
      let updatedResults := s.quizResults ++
        [⟨currentQ.nodeInfo, isCorrect, answer, currentQ.question.correct_answer⟩]
      if s.currentQuestionIndex < s.quizQuestions.length - 1 then
        let nextIndex := s.currentQuestionIndex + 1
        let nextMsg : List ChatMessage :=
          match s.quizQuestions[nextIndex]? with
          | some nextQuestion => [⟨"assistant", nextQuestion.question.question⟩]
          | none => []
        { s with
          messages := messages1 ++ nextMsg
          currentQuestionIndex := nextIndex
          answeredQuestionIndex := none
          quizResults := updatedResults }
      else
        { s with
          messages := messages1
          answeredQuestionIndex := some s.currentQuestionIndex
          quizResults := updatedResults
          isQuizActive := false
          storedAttempt := some updatedResults
          hasLastQuizResults := true
          showQuizResultsModal := true }

/-- The attempt entry `handleAnswerClick` records for question `q` answered
with `a`: the node reference, the chosen option, and a correctness flag that
is true exactly when the chosen option equals the designated correct one. -/
def mkAttemptEntry (q : QuizQuestion) (a : String) : QuizResultEntry :=
  ⟨q.nodeInfo, a == q.question.correct_answer, a, q.question.correct_answer⟩

/-! ## WebSocket service (`websocket-service.ts`) -/

/-- The readyState of the underlying browser WebSocket. -/
inductive ReadyState where
  | connecting
  | opened
  | closing
  | closed
deriving DecidableEq, Repr

/-- The fields of `WebSocketService` that govern sending and reconnecting;
`ws` is `none` when `this.ws === null`, otherwise it carries the socket's
readyState. -/
structure WebSocketServiceState where
  ws : Option ReadyState
  userId : Option String
  reconnectAttempts : Nat
  isConnecting : Bool
deriving DecidableEq, Repr

/-- A freshly constructed `WebSocketService`. -/
def initWebSocketService : WebSocketServiceState :=
  { ws := none, userId := none, reconnectAttempts := 0, isConnecting := false }

def maxReconnectAttempts : Nat := 5

def reconnectDelay : Nat := 1000

/-- A message written to the socket by `sendMessage` (the timestamp is a
wall-clock value and is omitted). -/
structure OutMessage where
  type : String
  content : String
  data : Option String
deriving DecidableEq, Repr

/-- `sendMessage`: when the socket is null or not OPEN, log an error and
return without sending or buffering anything; otherwise serialize and send
the message.  The second component is the message put on the wire. -/
def sendMessage (s : WebSocketServiceState) (type content : String) (data : Option String) :
    WebSocketServiceState × Option OutMessage :=
  match s.ws with
  | some ReadyState.opened => (s, some ⟨type, content, data⟩)
  | _ => (s, none)

/-- `connect`: a no-op while already connecting or already open; otherwise
remember the user and open a fresh socket (readyState CONNECTING).  Nothing
is written to the wire by connecting. -/
def connect (s : WebSocketServiceState) (uid : String) :
    WebSocketServiceState × List OutMessage :=
  if s.isConnecting ∨ s.ws = some ReadyState.opened then (s, [])
  else ({ s with isConnecting := true, userId := some uid, ws := some ReadyState.connecting }, [])

/-- The `onopen` handler: clear the connecting flag, reset the reconnect
counter, fire the connect callback.  Nothing is written to the wire. -/
def handleOpen (s : WebSocketServiceState) : WebSocketServiceState × List OutMessage :=
  ({ s with isConnecting := false, reconnectAttempts := 0, ws := some ReadyState.opened }, [])

/-- `scheduleReconnect`: bump the attempt counter and schedule a reconnect
after `reconnectDelay * 2 ^ (attempts - 1)` milliseconds.  The second
component is the scheduled delay. -/
def scheduleReconnect (s : WebSocketServiceState) : WebSocketServiceState × Option Nat :=
  let attempts := s.reconnectAttempts + 1
  ({ s with reconnectAttempts := attempts }, some (reconnectDelay * 2 ^ (attempts - 1)))

/-- The `onclose` handler: clear the connecting flag and, when the close was
not a normal closure (code 1000) and fewer than `maxReconnectAttempts`
attempts have been made, schedule a reconnect. -/
def handleClose (s : WebSocketServiceState) (code : Nat) : WebSocketServiceState × Option Nat :=
  let s1 := { s with isConnecting := false }
  if code ≠ 1000 ∧ s1.reconnectAttempts < maxReconnectAttempts then scheduleReconnect s1
  else (s1, none)

/-- Process a sequence of close events, collecting the scheduled reconnect
delays in order. -/
def runCloses (s : WebSocketServiceState) : List Nat → List Nat
  | [] => []
  | code :: rest =>
    match handleClose s code with
    | (s1, some delay) => delay :: runCloses s1 rest
    | (s1, none) => runCloses s1 rest

/-! ## Start-processing flow (`app/page.tsx`) and the orchestrator contract -/

/-- An uploaded file record of the declared `UploadedFile` interface. -/
structure UploadedFile where
  file_id : String
  file_name : String
  file_size : Nat
  content_type : String
  uploaded_at : String
  status : String
deriving DecidableEq, Repr

/-- The externally visible effects of one `handleStartProcessing` call. -/
structure ProcessingEffects where
  startedProcessing : Bool
  wsNotified : Option (List String)
  notices : List String
  sessionStarted : Bool
deriving DecidableEq, Repr

/-- `handleStartProcessing`: return immediately when no file has been
uploaded; otherwise enter the processing state, notify the WebSocket with
the uploaded file ids, post the start notice, and start the backend
learning session. -/
def handleStartProcessing (uploadedFiles : List UploadedFile) : ProcessingEffects :=
  if uploadedFiles.length = 0 then
    { startedProcessing := false, wsNotified := none, notices := [], sessionStarted := false }
  else
    { startedProcessing := true,
      wsNotified := some (uploadedFiles.map (fun f => f.file_id)),
      notices := ["Starting to process your uploaded materials. This may take a few moments..."],
      sessionStarted := true }

/-- The error taxonomy of the pipeline. -/
inductive PipelineError where
  | InvalidInput
  | ExtractionFailed
  | ConsolidationFailed
  | SynthesisUnavailable
  | RunAlreadyInProgress
deriving DecidableEq, Repr

/-- Modelled from the spec: the Pipeline Orchestrator contract
`StartRun(userID, assetIDs) -> runID` fails with `InvalidInput` if
`assetIDs` is empty and otherwise creates a run (the run identifier itself
is opaque; it is derived from the user here). -/
def StartRun (userID : String) (assetIDs : List String) : Except PipelineError String :=
  if assetIDs.isEmpty then .error .InvalidInput
  else .ok (userID ++ "-run")

/-! ## Concrete inputs used by witnesses and counterexamples -/

/-- A proposed forest whose only child skips from level 1 to level 3. -/
def skippedForest : List RawNode :=
  [RawNode.mk "Algebra" 1 none [RawNode.mk "Groups" 3 none []]]

/-- The repaired tree the synthesizer produces from `skippedForest`. -/
def repairedTree : RawNode :=
  RawNode.mk "Algebra" 1 none [RawNode.mk "Groups" 2 none []]

/-- A freshly generated question used in the C2 witness. -/
def freshQuestion : SpecQuestion :=
  ⟨"What is a group?", "a set", "a map", "a set with operation", "a number", "C", "definition"⟩

/-- A generated question whose normalized prompt collides with a stored one. -/
def dupQuestion : SpecQuestion :=
  ⟨"What IS  a group?", "a set", "a map", "a set with operation", "a number", "C", "definition"⟩

/-- A single synthesis run whose one node carries `freshQuestion`. -/
def c2Runs : List (List RawNode) :=
  [[RawNode.mk "Algebra" 1 (some freshQuestion) []]]

/-- An options object whose label D carries no text. -/
def lackingOptions : JSOptions :=
  ⟨some "a ring", some "a field", some "a monoid", none⟩

/-- A question with a prompt, an options object and a correct answer but no
explanation (and no option-D text). -/
def lackingQuestion : JSQuestion :=
  ⟨some "What is a group?", some lackingOptions, some "A", none⟩

/-- A node carrying `lackingQuestion`. -/
def lackingNode : KTNode :=
  KTNode.mk "Groups" 1 (some lackingQuestion) []

/-- A knowledge tree whose only node carries `lackingQuestion`. -/
def lackingTree : KnowledgeTree :=
  ⟨"Algebra", lackingNode⟩

/-- The flattened entry produced for `lackingNode`. -/
def lackingEntry : FlatEntry :=
  ⟨lackingQuestion, ⟨"Algebra", "Groups", 1⟩⟩

/-- Expected reconnect delays: `n` consecutive scheduled delays starting
after `a` earlier attempts. -/
def expDelays (a n : Nat) : List Nat :=
  (List.range n).map (fun k => reconnectDelay * 2 ^ (a + k))

/-- A fully populated question used by the quiz-flow witnesses. -/
def sampleQuestion : Question :=
  ⟨"Capital of France?", ⟨some "Paris", some "London", some "Berlin", some "Rome"⟩,
    "A", "Paris is the capital of France."⟩

/-- A quiz question with its node information. -/
def sampleQuizQuestion : QuizQuestion :=
  ⟨sampleQuestion, ⟨"Geography", "France", 1⟩⟩

/-- A state in which the current question was already answered. -/
def answeredState : QuizState :=
  { initHomeState with
    isQuizActive := true
    quizQuestions := [sampleQuizQuestion]
    answeredQuestionIndex := some 0 }

/-- The bookkeeping invariant of uniqueness enforcement: starting from the
prompt set `seen` and producing the prompt list `out` and the final set
`seenF`, the set only grows, every produced prompt's normalization is
recorded in the final set but was not in the starting set, and the produced
prompts are pairwise distinct under normalization. -/
def PromptInv (seen out seenF : List String) : Prop :=
  (∀ p ∈ seen, p ∈ seenF) ∧
  (∀ p ∈ out, normalizePrompt p ∈ seenF ∧ normalizePrompt p ∉ seen) ∧
  (out.map normalizePrompt).Nodup

/-! ## Theorems -/

/-- Structural induction principle for forests of `RawNode`, giving the
inductive hypothesis both for a head node's children and for the remaining
siblings. -/
theorem rawForestInd (P : List RawNode → Prop) (h0 : P [])
    (h1 : ∀ c l q ch rest, P ch → P rest → P (RawNode.mk c l q ch :: rest)) :
    ∀ f : List RawNode, P f := by
  have key : ∀ m (f : List RawNode), sizeOf f ≤ m → P f := by
    intro m
    induction m with
    | zero =>
      intro f hf
      match f with
      | [] => exact h0
      | .mk c l q ch :: rest =>
        exfalso
        have h1 : 0 < sizeOf (RawNode.mk c l q ch :: rest) := by
          simp
        omega
    | succ m ih =>
      intro f hf
      match f with
      | [] => exact h0
      | .mk c l q ch :: rest =>
        have hch : sizeOf ch ≤ m := by
          have := List.cons.sizeOf_spec (RawNode.mk c l q ch) rest
          have := RawNode.mk.sizeOf_spec c l q ch
          omega
        have hrest : sizeOf rest ≤ m := by
          have := List.cons.sizeOf_spec (RawNode.mk c l q ch) rest
          have := RawNode.mk.sizeOf_spec c l q ch
          omega
        exact h1 c l q ch rest (ih ch hch) (ih rest hrest)
  intro f
  exact key (sizeOf f) f le_rfl

theorem relInv_renumberForest (f : List RawNode) :
    ∀ lvl, relInv lvl (renumberForest (lvl + 1) f) = true := by
  induction f using rawForestInd with
  | h0 => intro lvl; simp [renumberForest, relInv]
  | h1 c l q ch rest ih1 ih2 =>
    intro lvl
    simp [renumberForest, relInv, ih1 (lvl + 1), ih2 lvl]

theorem relInv_repairChildren (f : List RawNode) :
    ∀ pl, relInv pl (repairChildren pl f) = true := by
  induction f using rawForestInd with
  | h0 => intro pl; simp [repairChildren, relInv]
  | h1 c l q ch rest ih1 ih2 =>
    intro pl
    by_cases h : l = pl + 1
    · simp [repairChildren, h, relInv, ih1 (pl + 1), ih2 pl]
    · simp [repairChildren, h, relInv, relInv_renumberForest ch (pl + 1), ih2 pl]

theorem treeRelInv_levelRepair (t : RawNode) : treeRelInv (levelRepair t) = true := by
  cases t with
  | mk c l q ch => simp [levelRepair, treeRelInv, relInv_repairChildren ch 1]

theorem relInv_clampChildren (f : List RawNode) :
    ∀ pl r, relInv pl f = true → relInv pl (clampChildren r f) = true := by
  induction f using rawForestInd with
  | h0 => intro pl r _; cases r <;> simp [clampChildren, relInv]
  | h1 c l q ch rest ih1 ih2 =>
    intro pl r h
    match r with
    | 0 => simp [clampChildren, relInv]
    | r + 1 =>
      simp only [relInv, Bool.and_eq_true] at h
      simp [clampChildren, relInv, h.1.1, ih1 l r h.1.2, ih2 pl (r + 1) h.2]

theorem treeRelInv_clampTree (maxDepth : Nat) (t : RawNode) :
    treeRelInv t = true → treeRelInv (clampTree maxDepth t) = true := by
  cases t with
  | mk c l q ch =>
    intro h
    simp only [clampTree, treeRelInv] at *
    exact relInv_clampChildren ch l (maxDepth - 1) h

theorem relInv_enforceForest (f : List RawNode) :
    ∀ seen pl, relInv pl ((enforceForest seen f).1) = relInv pl f := by
  induction f using rawForestInd with
  | h0 => intro seen pl; simp [enforceForest]
  | h1 c l q ch rest ih1 ih2 =>
    intro seen pl
    match q with
    | none => simp [enforceForest, relInv, ih1, ih2]
    | some gq =>
      by_cases hm : normalizePrompt gq.prompt ∈ seen
      · simp [enforceForest, hm, relInv, ih1, ih2]
      · simp [enforceForest, hm, relInv, ih1, ih2]

theorem treeRelInv_enforceForest (f : List RawNode) :
    ∀ seen, (∀ t ∈ f, treeRelInv t = true) →
      ∀ t ∈ (enforceForest seen f).1, treeRelInv t = true := by
  induction f using rawForestInd with
  | h0 => intro seen _ t ht; simp [enforceForest] at ht
  | h1 c l q ch rest ih1 ih2 =>
    intro seen h t ht
    have hhead : treeRelInv (RawNode.mk c l q ch) = true := h _ (by simp)
    have htail : ∀ u ∈ rest, treeRelInv u = true := fun u hu => h u (by simp [hu])
    have hch : ∀ seen0 q0, treeRelInv (RawNode.mk c l q0 ((enforceForest seen0 ch).1)) = true := by
      intro seen0 q0
      simp only [treeRelInv]
      rw [relInv_enforceForest ch seen0 l]
      simpa [treeRelInv] using hhead
    match q with
    | none =>
      simp only [enforceForest] at ht
      rcases List.mem_cons.mp ht with rfl | hmem
      · exact hch seen none
      · exact ih2 _ htail t hmem
    | some gq =>
      by_cases hm : normalizePrompt gq.prompt ∈ seen
      · simp only [enforceForest, if_pos hm] at ht
        rcases List.mem_cons.mp ht with rfl | hmem
        · exact hch seen none
        · exact ih2 _ htail t hmem
      · simp only [enforceForest, if_neg hm] at ht
        rcases List.mem_cons.mp ht with rfl | hmem
        · exact hch _ (some gq)
        · exact ih2 _ htail t hmem

/-- C1: for every KnowledgeTree produced by the Tree Synthesizer and every
non-root ConceptNode in it, the node's level equals its parent's level plus
1; the level-repair pass guarantees this for every input forest, including
forests whose proposed levels are skipped or repeated. -/
theorem synthesized_trees_level_invariant (maxDepth : Nat) (seed : List String)
    (forest : List RawNode) :
    ∀ t ∈ (synthesize maxDepth seed forest).1, treeRelInv t = true := by
  intro t ht
  apply treeRelInv_enforceForest _ seed _ t ht
  intro u hu
  simp only [List.mem_map] at hu
  obtain ⟨v, ⟨w, _, rfl⟩, rfl⟩ := hu
  exact treeRelInv_clampTree maxDepth (levelRepair w) (treeRelInv_levelRepair w)

/-- Witness for C1 at a concrete forest with a skipped level. -/
theorem synthesized_trees_level_invariant_witness :
    repairedTree ∈ (synthesize 5 [] skippedForest).1 ∧ treeRelInv repairedTree = true := by
  have hmem : repairedTree ∈ (synthesize 5 [] skippedForest).1 := by
    simp [synthesize, skippedForest, repairedTree, levelRepair, repairChildren,
      renumberForest, clampTree, clampChildren, enforceForest]
  exact ⟨hmem, synthesized_trees_level_invariant 5 [] skippedForest repairedTree hmem⟩

theorem PromptInv.nil (seen : List String) : PromptInv seen [] seen :=
  ⟨fun _ hp => hp, fun p hp => absurd hp (List.not_mem_nil p), by simp⟩

theorem PromptInv.trans_append {s0 s1 s2 xs ys : List String}
    (hx : PromptInv s0 xs s1) (hy : PromptInv s1 ys s2) :
    PromptInv s0 (xs ++ ys) s2 := by
  obtain ⟨hx1, hx2, hx3⟩ := hx
  obtain ⟨hy1, hy2, hy3⟩ := hy
  refine ⟨fun p hp => hy1 p (hx1 p hp), fun p hp => ?_, ?_⟩
  · rcases List.mem_append.mp hp with h | h
    · exact ⟨hy1 _ (hx2 p h).1, (hx2 p h).2⟩
    · exact ⟨(hy2 p h).1, fun hc => (hy2 p h).2 (hx1 _ hc)⟩
  · rw [List.map_append]
    refine List.Nodup.append hx3 hy3 (fun a hax hay => ?_)
    obtain ⟨p, hp, rfl⟩ := List.mem_map.mp hax
    obtain ⟨p2, hp2, he⟩ := List.mem_map.mp hay
    exact (hy2 p2 hp2).2 (he ▸ (hx2 p hp).1)

theorem PromptInv.cons_kept {s0 s2 out : List String} {gp : String}
    (h : PromptInv (normalizePrompt gp :: s0) out s2)
    (hnew : normalizePrompt gp ∉ s0) :
    PromptInv s0 (gp :: out) s2 := by
  obtain ⟨h1, h2, h3⟩ := h
  refine ⟨fun p hp => h1 p (by simp [hp]), fun p hp => ?_, ?_⟩
  · rcases List.mem_cons.mp hp with rfl | hmem
    · exact ⟨h1 _ (by simp), hnew⟩
    · exact ⟨(h2 p hmem).1, fun hc => (h2 p hmem).2 (by simp [hc])⟩
  · rw [List.map_cons]
    refine List.Nodup.cons (fun hc => ?_) h3
    obtain ⟨p, hp, he⟩ := List.mem_map.mp hc
    exact (h2 p hp).2 (by simp [he])

theorem enforceForest_prompts (f : List RawNode) :
    ∀ seen,
      PromptInv seen (collectPrompts (enforceForest seen f).1) (enforceForest seen f).2 := by
  induction f using rawForestInd with
  | h0 =>
    intro seen
    simpa [enforceForest, collectPrompts] using PromptInv.nil seen
  | h1 c l q ch rest ih1 ih2 =>
    intro seen
    match q with
    | none =>
      simp only [enforceForest, collectPrompts]
      exact (ih1 seen).trans_append (ih2 _)
    | some gq =>
      by_cases hm : normalizePrompt gq.prompt ∈ seen
      · simp only [enforceForest, if_pos hm, collectPrompts]
        exact (ih1 seen).trans_append (ih2 _)
      · simp only [enforceForest, if_neg hm, collectPrompts]
        exact ((ih1 _).trans_append (ih2 _)).cons_kept hm

theorem runAll_prompts (runs : List (List RawNode)) :
    ∀ maxDepth seed,
      PromptInv seed (collectPromptsAll (runAll maxDepth seed runs).1) (runAll maxDepth seed runs).2 := by
  induction runs with
  | nil =>
    intro maxDepth seed
    simpa [runAll, collectPromptsAll] using PromptInv.nil seed
  | cons f fs ih =>
    intro maxDepth seed
    have hstep : PromptInv seed (collectPrompts (synthesize maxDepth seed f).1)
        (synthesize maxDepth seed f).2 :=
      enforceForest_prompts ((f.map levelRepair).map (clampTree maxDepth)) seed
    have hrest := ih maxDepth (synthesize maxDepth seed f).2
    have hall := hstep.trans_append hrest
    simpa [runAll, collectPromptsAll] using hall

/-- C2: across all KnowledgeTrees ever generated for one user (repeated runs
seeded with the previously stored `existingQuestionPrompts`), no two kept
Questions have prompts that are equal after case-insensitive,
whitespace-collapsed normalization, and no kept prompt collides with the
seed; moreover a newly generated question whose normalized prompt is
already in the set is discarded, its node reverting to no question. -/
theorem global_question_uniqueness (maxDepth : Nat) (seed : List String)
    (runs : List (List RawNode)) :
    (((collectPromptsAll (runAll maxDepth seed runs).1).map normalizePrompt).Nodup
      ∧ ∀ p ∈ collectPromptsAll (runAll maxDepth seed runs).1, normalizePrompt p ∉ seed)
    ∧ (∀ seen c l gq ch rest, normalizePrompt gq.prompt ∈ seen →
        (enforceForest seen (RawNode.mk c l (some gq) ch :: rest)).1.head? =
          some (RawNode.mk c l none ((enforceForest seen ch).1))) := by
  obtain ⟨_, h2, h3⟩ := runAll_prompts runs maxDepth seed
  refine ⟨⟨h3, fun p hp => (h2 p hp).2⟩, fun seen c l gq ch rest hm => ?_⟩
  simp [enforceForest, if_pos hm]

/-- Witness for C2: one run over a one-node forest whose question is fresh
relative to the seeded prompt, and a discarded duplicate question. -/
theorem global_question_uniqueness_witness :
    (freshQuestion.prompt ∈ collectPromptsAll (runAll 5 ["stored prompt"] c2Runs).1
      ∧ normalizePrompt freshQuestion.prompt ∉ ["stored prompt"])
    ∧ (normalizePrompt dupQuestion.prompt ∈ [normalizePrompt freshQuestion.prompt]
      ∧ (enforceForest [normalizePrompt freshQuestion.prompt]
            [RawNode.mk "Groups" 2 (some dupQuestion) []]).1.head? =
          some (RawNode.mk "Groups" 2 none
            ((enforceForest [normalizePrompt freshQuestion.prompt] ([] : List RawNode)).1))) := by
  have hne : ¬(normalizePrompt freshQuestion.prompt = "stored prompt") := by decide
  have hmem : freshQuestion.prompt ∈ collectPromptsAll (runAll 5 ["stored prompt"] c2Runs).1 := by
    simp [c2Runs, runAll, collectPromptsAll, synthesize, levelRepair, repairChildren,
      clampTree, clampChildren, enforceForest, collectPrompts, hne]
  have hdup : normalizePrompt dupQuestion.prompt ∈ [normalizePrompt freshQuestion.prompt] := by
    decide
  exact ⟨⟨hmem,
      ((global_question_uniqueness 5 ["stored prompt"] c2Runs).1.2 _ hmem)⟩,
    hdup,
    (global_question_uniqueness 5 ["stored prompt"] c2Runs).2
      [normalizePrompt freshQuestion.prompt] "Groups" 2 dupQuestion [] [] hdup⟩

/-- Structural induction principle for forests of `KTNode`. -/
theorem ktForestInd (P : List KTNode → Prop) (h0 : P [])
    (h1 : ∀ c l q ch rest, P ch → P rest → P (KTNode.mk c l q ch :: rest)) :
    ∀ f : List KTNode, P f := by
  have key : ∀ m (f : List KTNode), sizeOf f ≤ m → P f := by
    intro m
    induction m with
    | zero =>
      intro f hf
      match f with
      | [] => exact h0
      | .mk c l q ch :: rest =>
        exfalso
        have h1 : 0 < sizeOf (KTNode.mk c l q ch :: rest) := by
          simp
        omega
    | succ m ih =>
      intro f hf
      match f with
      | [] => exact h0
      | .mk c l q ch :: rest =>
        have hch : sizeOf ch ≤ m := by
          have := List.cons.sizeOf_spec (KTNode.mk c l q ch) rest
          have := KTNode.mk.sizeOf_spec c l q ch
          omega
        have hrest : sizeOf rest ≤ m := by
          have := List.cons.sizeOf_spec (KTNode.mk c l q ch) rest
          have := KTNode.mk.sizeOf_spec c l q ch
          omega
        exact h1 c l q ch rest (ih ch hch) (ih rest hrest)
  intro f
  exact key (sizeOf f) f le_rfl

theorem traverseForest_eq (f : List KTNode) :
    ∀ rc, traverseForest rc f = (preorderForest f).filterMap (flatEntryOf rc) := by
  induction f using ktForestInd with
  | h0 => intro rc; simp [traverseForest, preorderForest]
  | h1 c l q ch rest ih1 ih2 =>
    intro rc
    cases q with
    | none =>
      simp [traverseForest, preorderForest, flatEntryOf, KTNode.question, ih1 rc, ih2 rc]
    | some jq =>
      by_cases ha : admitsQuestion jq
      · simp [traverseForest, preorderForest, flatEntryOf, KTNode.question, KTNode.concept,
          KTNode.level, ha, ih1 rc, ih2 rc]
      · simp [traverseForest, preorderForest, flatEntryOf, KTNode.question, ha, ih1 rc, ih2 rc]

/-- C4: for every list of knowledge trees, `flattenQuestions` never fails,
skips every node with no attached question, and returns exactly one
(question, nodeInfo) entry per node whose question object is present with
truthy prompt, options and correct answer, visiting the nodes of each tree
in depth-first pre-order. -/
theorem flattenQuestions_characterization (trees : List KnowledgeTree) :
    flattenQuestions trees =
      trees.flatMap fun t =>
        (preorderForest [t.tree]).filterMap (flatEntryOf (jsOr t.root_concept "Unknown")) := by
  simp [flattenQuestions, traverseForest_eq]

/-- C5 counterexample: a question lacking an explanation (and lacking text
for option D) is nevertheless admitted into the flattened question list, so
not every delivered question carries all the attributes the claim lists. -/
theorem question_attributes_counterexample :
    flattenQuestions [lackingTree] = [lackingEntry]
      ∧ lackingQuestion.explanation = none
      ∧ lackingOptions.D = none := by
  refine ⟨?_, rfl, rfl⟩
  have h1 : ¬("Algebra" = "") := by decide
  have h2 : ¬("Groups" = "") := by decide
  have h3 : admitsQuestion lackingQuestion = true := by decide
  simp [flattenQuestions, lackingTree, lackingNode, lackingEntry, traverseForest,
    jsOr, h1, h2, h3]

/-- C5 (amended): every question admitted into the flattened quiz list has a
truthy (present, non-empty) prompt, a present options object and a truthy
designated correct answer; the explanation and the individual A-D option
texts are not validated and may be absent. -/
theorem flattened_question_attributes (trees : List KnowledgeTree) :
    ∀ e ∈ flattenQuestions trees,
      strTruthy e.question.question = true
        ∧ e.question.options.isSome = true
        ∧ strTruthy e.question.correct_answer = true := by
  intro e he
  simp only [flattenQuestions, List.mem_flatMap] at he
  obtain ⟨t, _, he2⟩ := he
  rw [traverseForest_eq] at he2
  obtain ⟨n, _, hfe⟩ := List.mem_filterMap.mp he2
  cases n with
  | mk c2 l2 q2 ch2 =>
    cases q2 with
    | none => simp [flatEntryOf, KTNode.question] at hfe
    | some jq =>
      by_cases ha : admitsQuestion jq = true
      · simp only [flatEntryOf, KTNode.question, ha, if_true, Option.some.injEq] at hfe
        subst hfe
        simp only [admitsQuestion, Bool.and_eq_true] at ha
        exact ⟨ha.1.1, ha.1.2, ha.2⟩
      · simp [flatEntryOf, KTNode.question, ha] at hfe

/-- Witness for the amended C5 at the concrete entry of `lackingTree`. -/
theorem flattened_question_attributes_witness :
    lackingEntry ∈ flattenQuestions [lackingTree]
      ∧ (strTruthy lackingEntry.question.question = true
        ∧ lackingEntry.question.options.isSome = true
        ∧ strTruthy lackingEntry.question.correct_answer = true) := by
  have h1 : ¬("Algebra" = "") := by decide
  have h2 : ¬("Groups" = "") := by decide
  have h3 : admitsQuestion lackingQuestion = true := by decide
  have hmem : lackingEntry ∈ flattenQuestions [lackingTree] := by
    simp [flattenQuestions, lackingTree, lackingNode, lackingEntry, traverseForest,
      jsOr, h1, h2, h3]
  exact ⟨hmem, flattened_question_attributes [lackingTree] lackingEntry hmem⟩

theorem traverseIncorrect_eq (f : List KTNode) :
    ∀ resultMap rc,
      traverseIncorrect resultMap rc f =
        (preorderForest f).filterMap (incorrectEntryOf resultMap rc) := by
  induction f using ktForestInd with
  | h0 => intro m rc; simp [traverseIncorrect, preorderForest]
  | h1 c l q ch rest ih1 ih2 =>
    intro m rc
    by_cases h : getNodeResult (KTNode.mk c l q ch) rc m = some false
    · simp [traverseIncorrect, preorderForest, incorrectEntryOf, h, ih1 m rc, ih2 m rc]
    · simp [traverseIncorrect, preorderForest, incorrectEntryOf, h, ih1 m rc, ih2 m rc]

/-- C9: for every list of trees and every quiz-result map,
`getIncorrectNodesInOrder` returns exactly the nodes whose recorded result
is incorrect, ordered as the exact reverse of the top-down depth-first
pre-order traversal across the trees (last-visited node first). -/
theorem incorrect_nodes_reverse_preorder (trees : List KnowledgeTree)
    (resultMap : String → Option Bool) :
    getIncorrectNodesInOrder trees resultMap =
      (trees.flatMap fun t =>
        (preorderForest [t.tree]).filterMap (incorrectEntryOf resultMap t.root_concept)).reverse := by
  simp [getIncorrectNodesInOrder, traverseIncorrect_eq]

/-- C10: invoking `handleAnswerClick` when no quiz is active, when the
question index is exhausted, or when the current question was already
answered (answeredQuestionIndex equals currentQuestionIndex) changes
nothing: no chat message is appended, no result entry is recorded, and the
current question index does not advance. -/
theorem answer_click_frame (s : QuizState) (answer : String)
    (h : s.isQuizActive = false
      ∨ s.quizQuestions.length ≤ s.currentQuestionIndex
      ∨ s.answeredQuestionIndex = some s.currentQuestionIndex) :
    handleAnswerClick s answer = s := by
  by_cases h1 : ¬(s.isQuizActive = true) ∨ s.quizQuestions.length ≤ s.currentQuestionIndex
  · unfold handleAnswerClick
    rw [if_pos h1]
  · rcases h with h | h | h
    · exact absurd (Or.inl (by simp [h])) h1
    · exact absurd (Or.inr h) h1
    · unfold handleAnswerClick
      rw [if_neg h1, if_pos h]

/-- Witness for C10: answering again on an already-answered question leaves
the state unchanged. -/
theorem answer_click_frame_witness :
    answeredState.answeredQuestionIndex = some answeredState.currentQuestionIndex
    ∧ handleAnswerClick answeredState "A" = answeredState := by
  have h : answeredState.answeredQuestionIndex = some answeredState.currentQuestionIndex := rfl
  exact ⟨h, answer_click_frame answeredState "A" (Or.inr (Or.inr h))⟩

theorem handleAnswerClick_mid (s : QuizState) (a : String) (currentQ : QuizQuestion)
    (hact : s.isQuizActive = true)
    (hans : s.answeredQuestionIndex = none)
    (hq : s.quizQuestions[s.currentQuestionIndex]? = some currentQ)
    (hmid : s.currentQuestionIndex < s.quizQuestions.length - 1) :
    (handleAnswerClick s a).isQuizActive = true
    ∧ (handleAnswerClick s a).quizQuestions = s.quizQuestions
    ∧ (handleAnswerClick s a).currentQuestionIndex = s.currentQuestionIndex + 1
    ∧ (handleAnswerClick s a).answeredQuestionIndex = none
    ∧ (handleAnswerClick s a).quizResults = s.quizResults ++ [mkAttemptEntry currentQ a] := by
  unfold handleAnswerClick
  rw [if_neg (by push_neg; exact ⟨hact, by omega⟩), if_neg (by rw [hans]; simp), hq]
  dsimp only
  rw [if_pos hmid]
  simp [mkAttemptEntry, hact]

theorem handleAnswerClick_last (s : QuizState) (a : String) (currentQ : QuizQuestion)
    (hact : s.isQuizActive = true)
    (hans : s.answeredQuestionIndex = none)
    (hq : s.quizQuestions[s.currentQuestionIndex]? = some currentQ)
    (hk : s.currentQuestionIndex < s.quizQuestions.length)
    (hlast : ¬(s.currentQuestionIndex < s.quizQuestions.length - 1)) :
    (handleAnswerClick s a).storedAttempt = some (s.quizResults ++ [mkAttemptEntry currentQ a])
    ∧ (handleAnswerClick s a).hasLastQuizResults = true := by
  unfold handleAnswerClick
  rw [if_neg (by push_neg; exact ⟨hact, by omega⟩), if_neg (by rw [hans]; simp), hq]
  dsimp only
  rw [if_neg hlast]
  simp [mkAttemptEntry]

theorem runQuiz_spec (ans : List String) :
    ∀ (s : QuizState),
      s.isQuizActive = true → s.answeredQuestionIndex = none →
      s.currentQuestionIndex + ans.length = s.quizQuestions.length → ans ≠ [] →
      (ans.foldl handleAnswerClick s).storedAttempt
          = some (s.quizResults
              ++ List.zipWith mkAttemptEntry (s.quizQuestions.drop s.currentQuestionIndex) ans)
        ∧ (ans.foldl handleAnswerClick s).hasLastQuizResults = true := by
  induction ans with
  | nil => intro s _ _ _ hne; exact absurd rfl hne
  | cons a rest ih =>
    intro s hact hans hlen _
    have hlen2 : s.currentQuestionIndex + (rest.length + 1) = s.quizQuestions.length := by
      simpa using hlen
    have hk : s.currentQuestionIndex < s.quizQuestions.length := by omega
    obtain ⟨currentQ, hq⟩ : ∃ q, s.quizQuestions[s.currentQuestionIndex]? = some q :=
      ⟨_, List.getElem?_eq_getElem hk⟩
    have hdrop : s.quizQuestions.drop s.currentQuestionIndex
        = currentQ :: s.quizQuestions.drop (s.currentQuestionIndex + 1) := by
      have h2 := (List.getElem?_eq_getElem hk).symm.trans hq
      injection h2 with h2
      rw [List.drop_eq_getElem_cons hk, h2]
    match rest with
    | [] =>
      have hlast : ¬(s.currentQuestionIndex < s.quizQuestions.length - 1) := by
        simp at hlen2
        omega
      have hstep := handleAnswerClick_last s a currentQ hact hans hq hk hlast
      simp only [List.foldl_cons, List.foldl_nil, hdrop]
      simpa using hstep
    | b :: rest2 =>
      have hmid : s.currentQuestionIndex < s.quizQuestions.length - 1 := by
        simp at hlen2
        omega
      obtain ⟨h1, h2, h3, h4, h5⟩ := handleAnswerClick_mid s a currentQ hact hans hq hmid
      have hlen3 : (handleAnswerClick s a).currentQuestionIndex + (b :: rest2).length
          = (handleAnswerClick s a).quizQuestions.length := by
        rw [h2, h3]
        simp at hlen2 ⊢
        omega
      have hres := ih (handleAnswerClick s a) h1 h4 hlen3 (by simp)
      rw [h2, h3, h5] at hres
      simp only [List.foldl_cons] at hres ⊢
      constructor
      · rw [hres.1, hdrop]
        simp
      · exact hres.2

/-- C3: when the user answers the last of N quiz questions, the recorded
attempt contains exactly N entries in question order, each pairing the
node reference with the chosen option and a correctness flag that is true
iff the chosen option equals the designated correct option; the attempt is
persisted via storeQuizResults and retained as the user's last attempt. -/
theorem quiz_completion (qs : List QuizQuestion) (ans : List String)
    (hlen : ans.length = qs.length) (hne : qs ≠ []) :
    (ans.foldl handleAnswerClick
        (handleStartQuiz { initHomeState with quizQuestions := qs })).storedAttempt
      = some (List.zipWith mkAttemptEntry qs ans)
    ∧ (List.zipWith mkAttemptEntry qs ans).length = qs.length
    ∧ (∀ q a, (mkAttemptEntry q a).correct = true ↔ a = q.question.correct_answer)
    ∧ (∀ q a, (mkAttemptEntry q a).nodeInfo = q.nodeInfo
        ∧ (mkAttemptEntry q a).userAnswer = a)
    ∧ (ans.foldl handleAnswerClick
        (handleStartQuiz { initHomeState with quizQuestions := qs })).hasLastQuizResults
      = true := by
  have hproj : (handleStartQuiz { initHomeState with quizQuestions := qs }).isQuizActive = true
      ∧ (handleStartQuiz { initHomeState with quizQuestions := qs }).currentQuestionIndex = 0
      ∧ (handleStartQuiz { initHomeState with quizQuestions := qs }).answeredQuestionIndex = none
      ∧ (handleStartQuiz { initHomeState with quizQuestions := qs }).quizResults = []
      ∧ (handleStartQuiz { initHomeState with quizQuestions := qs }).quizQuestions = qs := by
    unfold handleStartQuiz
    cases qs with
    | nil => simp [initHomeState]
    | cons q t => simp [initHomeState]
  obtain ⟨hp1, hp2, hp3, hp4, hp5⟩ := hproj
  have hansne : ans ≠ [] := by
    intro hc
    subst hc
    simp at hlen
    exact hne (List.length_eq_zero.mp hlen.symm)
  have hmain := runQuiz_spec ans (handleStartQuiz { initHomeState with quizQuestions := qs })
    hp1 hp3 (by rw [hp2, hp5]; omega) hansne
  rw [hp2, hp4, hp5] at hmain
  refine ⟨by simpa using hmain.1, ?_, ?_, ?_, hmain.2⟩
  · rw [List.length_zipWith, hlen, Nat.min_self]
  · intro q a
    simp [mkAttemptEntry]
  · intro q a
    exact ⟨rfl, rfl⟩

/-- Witness for C3 on a one-question quiz answered with option B. -/
theorem quiz_completion_witness :
    ((["B"] : List String).length = [sampleQuizQuestion].length
      ∧ ([sampleQuizQuestion] : List QuizQuestion) ≠ [])
    ∧ ((["B"] : List String).foldl handleAnswerClick
        (handleStartQuiz { initHomeState with quizQuestions := [sampleQuizQuestion] })).storedAttempt
      = some (List.zipWith mkAttemptEntry [sampleQuizQuestion] ["B"]) := by
  refine ⟨⟨rfl, by simp⟩, ?_⟩
  exact (quiz_completion [sampleQuizQuestion] ["B"] rfl (by simp)).1

/-- C6: calling `sendMessage` while the WebSocket is not open drops the
event: the service state is unchanged (so nothing is queued or buffered)
and nothing is written to the wire; and neither connecting nor a later
successful open writes anything, so a dropped message is never replayed. -/
theorem send_when_not_open_drops :
    (∀ (s : WebSocketServiceState) (type content : String) (data : Option String),
        s.ws ≠ some ReadyState.opened → sendMessage s type content data = (s, none))
    ∧ (∀ (s : WebSocketServiceState) (uid : String), (connect s uid).2 = [])
    ∧ (∀ s : WebSocketServiceState, (handleOpen s).2 = []) := by
  refine ⟨fun s type content data h => ?_, fun s uid => ?_, fun s => rfl⟩
  · unfold sendMessage
    match hws : s.ws with
    | none => rfl
    | some ReadyState.connecting => rfl
    | some ReadyState.closing => rfl
    | some ReadyState.closed => rfl
    | some ReadyState.opened => exact absurd hws h
  · unfold connect
    split
    · rfl
    · rfl

/-- Witness for C6 on a freshly constructed service (socket null). -/
theorem send_when_not_open_drops_witness :
    initWebSocketService.ws ≠ some ReadyState.opened
    ∧ sendMessage initWebSocketService "chat" "hello" none = (initWebSocketService, none) := by
  have h : initWebSocketService.ws ≠ some ReadyState.opened := by
    simp [initWebSocketService]
  exact ⟨h, send_when_not_open_drops.1 initWebSocketService "chat" "hello" none h⟩

theorem expDelays_succ (a n : Nat) :
    expDelays a (n + 1) = reconnectDelay * 2 ^ a :: expDelays (a + 1) n := by
  unfold expDelays
  rw [List.range_succ_eq_map, List.map_cons, List.map_map]
  refine congrArg₂ _ (by simp) ?_
  refine List.map_congr_left fun k _ => ?_
  simp only [Function.comp_apply]
  rw [show a + (k + 1) = a + 1 + k by omega]

theorem runCloses_cons_sched (s : WebSocketServiceState) {code : Nat} (rest : List Nat)
    (h : code ≠ 1000 ∧ s.reconnectAttempts < maxReconnectAttempts) :
    runCloses s (code :: rest)
      = reconnectDelay * 2 ^ s.reconnectAttempts
        :: runCloses { s with isConnecting := false,
                              reconnectAttempts := s.reconnectAttempts + 1 } rest := by
  simp only [runCloses, handleClose, scheduleReconnect]
  rw [if_pos (by simpa using h)]
  simp

theorem runCloses_cons_skip (s : WebSocketServiceState) {code : Nat} (rest : List Nat)
    (h : ¬(code ≠ 1000 ∧ s.reconnectAttempts < maxReconnectAttempts)) :
    runCloses s (code :: rest) = runCloses { s with isConnecting := false } rest := by
  simp only [runCloses, handleClose]
  rw [if_neg (by simpa using h)]

theorem runCloses_spec (codes : List Nat) :
    ∀ s : WebSocketServiceState,
      (s.reconnectAttempts + (runCloses s codes).length ≤ maxReconnectAttempts
        ∨ runCloses s codes = [])
      ∧ runCloses s codes = expDelays s.reconnectAttempts (runCloses s codes).length := by
  induction codes with
  | nil => intro s; simp [runCloses, expDelays]
  | cons code rest ih =>
    intro s
    by_cases hc : code ≠ 1000 ∧ s.reconnectAttempts < maxReconnectAttempts
    · rw [runCloses_cons_sched s rest hc]
      obtain ⟨ih1, ih2⟩ := ih { s with isConnecting := false,
                                       reconnectAttempts := s.reconnectAttempts + 1 }
      dsimp only at ih1 ih2
      constructor
      · left
        rcases ih1 with h | h
        · simp only [List.length_cons]
          omega
        · rw [h]
          simp only [List.length_cons, List.length_nil]
          omega
      · rw [List.length_cons, expDelays_succ]
        exact congrArg₂ List.cons rfl ih2
    · rw [runCloses_cons_skip s rest hc]
      obtain ⟨ih1, ih2⟩ := ih { s with isConnecting := false }
      dsimp only at ih1 ih2
      exact ⟨ih1, ih2⟩

/-- C7: the WebSocket client never schedules a reconnect after a normal
closure (close code 1000); starting from a fresh service it never schedules
more than `maxReconnectAttempts` (5) reconnects across any sequence of
close events; and the n-th scheduled reconnect is delayed by
`1000 * 2 ^ (n - 1)` milliseconds. -/
theorem websocket_reconnect_policy :
    (∀ s : WebSocketServiceState, (handleClose s 1000).2 = none)
    ∧ (∀ codes : List Nat,
        (runCloses initWebSocketService codes).length ≤ maxReconnectAttempts)
    ∧ (∀ codes : List Nat,
        runCloses initWebSocketService codes
          = (List.range (runCloses initWebSocketService codes).length).map
              (fun k => reconnectDelay * 2 ^ k)) := by
  refine ⟨fun s => ?_, fun codes => ?_, fun codes => ?_⟩
  · unfold handleClose
    rw [if_neg (by simp)]
  · obtain ⟨h1, _⟩ := runCloses_spec codes initWebSocketService
    rcases h1 with h | h
    · simpa [initWebSocketService] using h
    · simp [h]
  · obtain ⟨_, h2⟩ := runCloses_spec codes initWebSocketService
    rw [h2]
    simp [initWebSocketService, expDelays]

/-- C8: starting a processing run with an empty asset list fails with
`InvalidInput` and no run starts; in the client, `handleStartProcessing`
with an empty uploaded-file list performs no dispatch, sends no
notification and starts no learning session. -/
theorem empty_asset_list_rejected :
    (∀ userID : String, StartRun userID [] = Except.error PipelineError.InvalidInput)
    ∧ handleStartProcessing []
      = { startedProcessing := false, wsNotified := none, notices := [],
          sessionStarted := false } :=
  ⟨fun _ => rfl, rfl⟩
